import Mathlib

/-!
Verification of the octopus price pipeline (src/octopus.py) against its
specification. The interval merger, report formatter and fetch/insert error
flow are embedded directly from the Python source; the MySQL statement
semantics (INSERT IGNORE, SELECT ... ORDER BY) and the pytz timezone
database are external collaborators and are modelled from the spec where
noted. Definitions come first, the theorems about them after.

Overview of the embedding:
- `concatLoop` / `concatHours`: the interval merger inside
  `get_hours_below_price`.
- `PricePeriod`, `insertIgnore`, `queryBelow`: the MySQL price table, the
  INSERT IGNORE ingestion and the below-threshold SELECT.
- `format_hours`, `sectionHeader`, `sectionHtml`: the HTML report body.
- `parseIso`, `addMinutes`, `tzOffsetMinutes`, `to_timezone`: the time
  normalizer.
- `get_price`, `insert_price`, `runFetchInsert`: the fetch-then-ingest error
  flow of `main`.
-/

namespace Octopus

/-! ### Interval merger

Embeds the "Concat continuous hours" loop of `get_hours_below_price`
(src/octopus.py lines 103-109):

    continuous_hours = [list(hours[0])]
    for hour in hours[1:]:
        if hour[0] == continuous_hours[-1][1]:
            continuous_hours[-1][1] = hour[1]
        else:
            continuous_hours.append(list(hour))

The Python loop keeps the interval under construction as the mutable last
element of `continuous_hours`; `concatLoop` carries that interval as `cur`
and emits it when a gap is found. -/

variable {α : Type*} [DecidableEq α]

def concatLoop (cur : α × α) : List (α × α) → List (α × α)
  | [] => [cur]
  | h :: t => if h.1 = cur.2 then concatLoop (cur.1, h.2) t else cur :: concatLoop h t

def concatHours : List (α × α) → List (α × α)
  | [] => []
  | h :: t => concatLoop h t

/-! ### Price store

The table created by `create_table` (src/octopus.py lines 15-27):
`price(from_period datetime PRIMARY KEY, to_period datetime, price FLOAT)`.
A row is a `PricePeriod`; the table state is the list of rows in insertion
order. Timestamps are abstracted as `Nat` instants (MySQL datetimes compare
chronologically) and prices as rationals. -/

structure PricePeriod where
  from_period : Nat
  to_period : Nat
  price : ℚ
deriving DecidableEq

/-- Modelled from the spec: the MySQL engine executing
`INSERT IGNORE INTO price VALUES (...)` (src/octopus.py line 73) is external;
per the spec, "rows whose primary key (`from`) already exists are silently
skipped". `key` extracts the primary-key column. -/
def insertIgnore {ρ β : Type*} [DecidableEq β] (key : ρ → β) (store : List ρ) (r : ρ) :
    List ρ :=
  if store.any (fun p => decide (key p = key r)) then store else store ++ [r]

/-! ### Range query below a threshold

Embeds the SELECT of `get_hours_below_price` (src/octopus.py lines 93-99):

    SELECT from_period, to_period FROM price
    WHERE from_period BETWEEN "{today} 00:00:00" AND "{tomorrow} 23:59:59"
    AND price < {price} ORDER BY from_period ASC

Modelled from the spec: the MySQL engine evaluating WHERE / ORDER BY is
external; per the spec, `queryBelow` "returns PricePeriods with
`price < threshold` within `[dateRangeStart, dateRangeEnd]`, ordered
ascending by `from`". The window endpoints are the abstract instants
`lo`/`hi` (SQL BETWEEN is inclusive on both ends). -/

def byFrom (a b : Nat × Nat) : Prop := a.1 ≤ b.1

instance : DecidableRel byFrom := fun a b => Nat.decLe a.1 b.1

instance : IsTotal (Nat × Nat) byFrom := ⟨fun a b => Nat.le_total a.1 b.1⟩

instance : IsTrans (Nat × Nat) byFrom := ⟨fun _ _ _ h₁ h₂ => Nat.le_trans h₁ h₂⟩

def queryBelow (store : List PricePeriod) (thr : ℚ) (lo hi : Nat) : List (Nat × Nat) :=
  List.insertionSort byFrom
    ((store.filter (fun p => decide (lo ≤ p.from_period) && decide (p.from_period ≤ hi)
        && decide (p.price < thr))).map (fun p => (p.from_period, p.to_period)))

/-! ### Report formatter

Embeds `format_hours` (src/octopus.py lines 116-122) and the per-threshold
section assembly in `main` (src/octopus.py lines 144-154). -/

def format_hours (hours : List (String × String)) : String :=
  hours.foldl
    (fun html h => html ++ ("<tr><td>" ++ h.1 ++ "</td><td></td><td>" ++ h.2 ++ "</td></tr>"))
    ""

/-- The HTML written for one interval: start time, blank separator cell, end
time. -/
def rowHtml (h : String × String) : String :=
  "<tr><td>" ++ h.1 ++ "</td><td></td><td>" ++ h.2 ++ "</td></tr>"

/-- The per-threshold header emitted by `main` before `format_hours` output
(the f-string at src/octopus.py lines 147-151). -/
def sectionHeader (t : Nat) : String :=
  "\n        <b>Hours below " ++ toString t ++ "p/kWh:</b><br>\n        <table>\n" ++
    "        <tr><th>From</th><th></th><th>To</th></tr>\n        "

/-- One threshold's report section as assembled in `main`. -/
def sectionHtml (t : Nat) (hours : List (String × String)) : String :=
  sectionHeader t ++ format_hours hours ++ "</table><br>"

/-! ### Time normalizer

Embeds `to_timezone` (src/octopus.py lines 47-57): parse the ISO-8601 UTC
string (the trailing zone designator replaced by +00:00), convert to the
target timezone accounting for DST, and render as "YYYY-MM-DD HH:MM:SS". -/

def digitVal (c : Char) : Nat := c.toNat - 48

def digitsToNat (cs : List Char) : Nat := cs.foldl (fun n c => 10 * n + digitVal c) 0

structure CivilTime where
  year : Nat
  month : Nat
  day : Nat
  hour : Nat
  minute : Nat
  second : Nat
deriving DecidableEq

/-- Reads the fixed-position fields of "YYYY-MM-DDTHH:MM:SSZ"
(`datetime.fromisoformat` on the well-formed inputs the pipeline feeds it). -/
def parseIso (t : String) : CivilTime :=
  let cs := t.data
  { year := digitsToNat (cs.take 4)
    month := digitsToNat ((cs.drop 5).take 2)
    day := digitsToNat ((cs.drop 8).take 2)
    hour := digitsToNat ((cs.drop 11).take 2)
    minute := digitsToNat ((cs.drop 14).take 2)
    second := digitsToNat ((cs.drop 17).take 2) }

def isLeap (y : Nat) : Bool := (y % 4 == 0 && y % 100 != 0) || (y % 400 == 0)

def daysInMonth (y m : Nat) : Nat :=
  if m = 2 then (if isLeap y then 29 else 28)
  else if m = 4 ∨ m = 6 ∨ m = 9 ∨ m = 11 then 30
  else 31

def addDays : Nat → Nat × Nat × Nat → Nat × Nat × Nat
  | 0, ymd => ymd
  | n + 1, (y, m, d) =>
      if d < daysInMonth y m then addDays n (y, m, d + 1)
      else if m < 12 then addDays n (y, m + 1, 1)
      else addDays n (y + 1, 1, 1)

def addMinutes (t : CivilTime) (k : Nat) : CivilTime :=
  let total := t.hour * 60 + t.minute + k
  let ymd := addDays (total / 1440) (t.year, t.month, t.day)
  { year := ymd.1, month := ymd.2.1, day := ymd.2.2,
    hour := total % 1440 / 60, minute := total % 60, second := t.second }

/-- Modelled from the spec: the pytz timezone database used by
`t.astimezone(pytz.timezone(tz))` is external. Per the spec, Europe/London
is UTC+0 in winter (no DST) and shifted by the +1 hour DST offset in summer.
The summer months April through September carry the 60-minute offset; the
late-March/late-October transition days and timezones other than
Europe/London are outside the model (offset 0). -/
def tzOffsetMinutes (tz : String) (month : Nat) : Nat :=
  if tz = "Europe/London" ∧ 4 ≤ month ∧ month ≤ 9 then 60 else 0

def pad2 (n : Nat) : List Char := [Char.ofNat (48 + n / 10 % 10), Char.ofNat (48 + n % 10)]

def pad4 (n : Nat) : List Char :=
  [Char.ofNat (48 + n / 1000 % 10), Char.ofNat (48 + n / 100 % 10),
    Char.ofNat (48 + n / 10 % 10), Char.ofNat (48 + n % 10)]

/-- Renders `strftime("%Y-%m-%d %H:%M:%S")`. -/
def formatCivil (t : CivilTime) : String :=
  String.mk (pad4 t.year ++ [Char.ofNat 45] ++ pad2 t.month ++ [Char.ofNat 45] ++ pad2 t.day
    ++ [Char.ofNat 32] ++ pad2 t.hour ++ [Char.ofNat 58] ++ pad2 t.minute ++ [Char.ofNat 58]
    ++ pad2 t.second)

def to_timezone (t : String) (tz : String) : String :=
  let u := parseIso t
  formatCivil (addMinutes u (tzOffsetMinutes tz u.month))

/-! ### Fetch and ingest error flow

Embeds `get_price` (src/octopus.py lines 30-44), `insert_price`
(lines 60-74) and their composition in `main` (lines 139-141).

    resp = requests.get(url, auth=(api_key, ''))
    return resp.json()

`requests.get` raises on a network failure (modelled by the `Except`-typed
argument); on any completed response, including non-2xx ones, `get_price`
returns the parsed body without inspecting the status code. `insert_price`
then subscripts the body with 'results'; a body without that key raises
KeyError before any INSERT is executed, and since `con.commit()` is only
reached at the end, an aborted run leaves the table unchanged. The JSON
bodies are modelled with just the shapes the code touches: a "results"
array of rate records, or error text under other keys. -/

structure RawRate where
  valid_from : String
  valid_to : String
  value_inc_vat : ℚ
deriving DecidableEq

inductive JsonVal where
  | str : String → JsonVal
  | arr : List RawRate → JsonVal
deriving DecidableEq

structure HttpResponse where
  status : Nat
  body : List (String × JsonVal)
deriving DecidableEq

inductive OctoErr where
  | netError
  | keyError (k : String)
  | typeError
deriving DecidableEq

def get_price (netResult : Except Unit HttpResponse) :
    Except OctoErr (List (String × JsonVal)) :=
  match netResult with
  | .error _ => .error .netError
  | .ok resp => .ok resp.body

def lookupKey : List (String × JsonVal) → String → Option JsonVal
  | [], _ => none
  | (k, v) :: t, key => if k = key then some v else lookupKey t key

structure Row where
  from_s : String
  to_s : String
  priceVal : ℚ
deriving DecidableEq

/-- The pair returned by `insert_price` is the table after the call together
with the exception it raised, if any; an exception means no commit happened,
so the table component stays as it was. -/
def insert_price (store : List Row) (prices : List (String × JsonVal)) :
    List Row × Option OctoErr :=
  match lookupKey prices "results" with
  | none => (store, some (.keyError "results"))
  | some (.str _) => (store, some .typeError)
  | some (.arr rs) =>
      (rs.foldl (fun s p => insertIgnore Row.from_s s
        ⟨to_timezone p.valid_from "Europe/London", to_timezone p.valid_to "Europe/London",
          p.value_inc_vat⟩) store, none)

/-- The fetch-then-ingest prefix of `main`. -/
def runFetchInsert (store : List Row) (netResult : Except Unit HttpResponse) :
    List Row × Option OctoErr :=
  match get_price netResult with
  | .error e => (store, some e)
  | .ok body => insert_price store body

/-! ### Theorems: the interval merger -/

/-- C6: merging [(08:00,08:30),(08:30,09:00),(10:00,10:30)] yields exactly
[(08:00,09:00),(10:00,10:30)]. -/
theorem concatHours_example :
    concatHours [("08:00", "08:30"), ("08:30", "09:00"), ("10:00", "10:30")]
      = [("08:00", "09:00"), ("10:00", "10:30")] := by
  decide

/-- C1: the merger is a single left-to-right scan: empty input gives empty
output, a single pair gives that one-period interval, a subsequent pair whose
`from` equals the current interval's `to` extends the current interval, and
any other pair closes the current interval and opens a new one. -/
theorem concatHours_single_scan :
    (concatHours ([] : List (Nat × Nat)) = []) ∧
    (∀ p : Nat × Nat, concatHours [p] = [p]) ∧
    (∀ (p q : Nat × Nat) (rest : List (Nat × Nat)), q.1 = p.2 →
        concatHours (p :: q :: rest) = concatHours ((p.1, q.2) :: rest)) ∧
    (∀ (p q : Nat × Nat) (rest : List (Nat × Nat)), q.1 ≠ p.2 →
        concatHours (p :: q :: rest) = p :: concatHours (q :: rest)) := by
  refine ⟨rfl, fun p => rfl, fun p q rest h => ?_, fun p q rest h => ?_⟩
  · simp [concatHours, concatLoop, h]
  · simp [concatHours, concatLoop, h]

theorem concatHours_single_scan_witness :
    concatHours [((8 : Nat), 9), (9, 10)] = [(8, 10)] ∧
    concatHours [((8 : Nat), 9), (11, 12)] = [(8, 9), (11, 12)] := by
  constructor
  · rw [concatHours_single_scan.2.2.1 (8, 9) (9, 10) [] rfl]
    exact concatHours_single_scan.2.1 (8, 10)
  · rw [concatHours_single_scan.2.2.2 (8, 9) (11, 12) [] (by decide)]
    rw [concatHours_single_scan.2.1 (11, 12)]

theorem concatLoop_contig (t : List (α × α)) :
    ∀ p : α × α, List.Chain' (fun a b => a.2 = b.1) (p :: t) →
      concatLoop p t = [(p.1, (List.getLast (p :: t) (List.cons_ne_nil p t)).2)] := by
  induction t with
  | nil => intro p _; simp [concatLoop]
  | cons q t ih =>
    intro p hc
    rw [List.chain'_cons] at hc
    have hq : q.1 = p.2 := hc.1.symm
    have hch : List.Chain' (fun a b : α × α => a.2 = b.1) ((p.1, q.2) :: t) := by
      cases t with
      | nil => simp
      | cons r t' =>
        have h2 := List.chain'_cons.mp hc.2
        exact List.chain'_cons.mpr ⟨h2.1, h2.2⟩
    have hrec := ih (p.1, q.2) hch
    have hlast : ((((p.1, q.2)) :: t).getLast (List.cons_ne_nil _ t)).2
        = ((p :: q :: t).getLast (List.cons_ne_nil p (q :: t))).2 := by
      cases t with
      | nil => simp [List.getLast]
      | cons r t' => simp [List.getLast_cons]
    rw [concatLoop, if_pos hq, hrec, hlast]

/-- C7: on a non-empty, pairwise-contiguous (each `to` equals the next `from`)
sequence, the merger outputs the single interval spanning from the first
period's `from` to the last period's `to`. -/
theorem concatHours_contiguous_span (l : List (Nat × Nat)) (h : l ≠ [])
    (hc : List.Chain' (fun a b => a.2 = b.1) l) :
    concatHours l = [((l.head h).1, (l.getLast h).2)] := by
  cases l with
  | nil => exact absurd rfl h
  | cons p t => exact concatLoop_contig t p hc

theorem concatHours_contiguous_span_witness :
    concatHours [((480 : Nat), 510), (510, 540)] = [(480, 540)] :=
  concatHours_contiguous_span [(480, 510), (510, 540)] (by decide)
    (by simp [List.chain'_cons])

theorem concatLoop_noncontig (t : List (α × α)) :
    ∀ p : α × α, List.Chain' (fun a b => a.2 ≠ b.1) (p :: t) →
      (concatLoop p t).length = t.length + 1 := by
  induction t with
  | nil => intro p _; simp [concatLoop]
  | cons q t ih =>
    intro p hc
    rw [List.chain'_cons] at hc
    have hq : ¬ q.1 = p.2 := fun e => hc.1 e.symm
    simp [concatLoop, hq, ih q hc.2]

/-- C8: on a pairwise non-contiguous sequence (no period's `to` equals the
next period's `from`), the merger output has the same length as the input. -/
theorem concatHours_noncontiguous_length (l : List (Nat × Nat))
    (hc : List.Chain' (fun a b => a.2 ≠ b.1) l) :
    (concatHours l).length = l.length := by
  cases l with
  | nil => rfl
  | cons p t => simpa [concatHours] using concatLoop_noncontig t p hc

theorem concatHours_noncontiguous_length_witness :
    (concatHours [((480 : Nat), 510), (540, 570)]).length = 2 :=
  concatHours_noncontiguous_length [(480, 510), (540, 570)]
    (by simp [List.chain'_cons])

theorem concatLoop_head_eq (t : List (α × α)) :
    ∀ cur : α × α, ∃ b tail, concatLoop cur t = (cur.1, b) :: tail := by
  induction t with
  | nil => intro cur; exact ⟨cur.2, [], by simp [concatLoop]⟩
  | cons h t ih =>
    intro cur
    by_cases hh : h.1 = cur.2
    · obtain ⟨b, tail, he⟩ := ih (cur.1, h.2)
      exact ⟨b, tail, by simpa [concatLoop, hh] using he⟩
    · obtain ⟨b, tail, he⟩ := ih h
      exact ⟨cur.2, concatLoop h t, by simp [concatLoop, hh]⟩

theorem concatLoop_no_touching (t : List (α × α)) :
    ∀ cur : α × α, List.Chain' (fun a b => a.2 ≠ b.1) (concatLoop cur t) := by
  induction t with
  | nil => intro cur; simp [concatLoop]
  | cons h t ih =>
    intro cur
    by_cases hh : h.1 = cur.2
    · simpa [concatLoop, hh] using ih (cur.1, h.2)
    · obtain ⟨b, tail, he⟩ := concatLoop_head_eq t h
      rw [concatLoop, if_neg hh, he, List.chain'_cons]
      exact ⟨fun e => hh e.symm, he ▸ ih h⟩

/-- C10: for strictly ascending, internally well-formed (`from < to`),
non-overlapping inputs, the merger's output is maximally merged: no output
interval starts exactly where the previous one ends. -/
theorem concatHours_maximal (l : List (Nat × Nat))
    (hasc : List.Chain' (fun p q => p.1 < q.1) l)
    (hwf : ∀ p ∈ l, p.1 < p.2)
    (hov : List.Chain' (fun p q => p.2 ≤ q.1) l) :
    List.Chain' (fun a b => a.2 ≠ b.1) (concatHours l) := by
  cases l with
  | nil => simp [concatHours]
  | cons p t => exact concatLoop_no_touching t p

theorem concatHours_maximal_witness :
    List.Chain' (fun a b => a.2 ≠ b.1) (concatHours [((480 : Nat), 510), (510, 540), (600, 630)]) :=
  concatHours_maximal [(480, 510), (510, 540), (600, 630)]
    (by simp [List.chain'_cons]) (by decide) (by simp [List.chain'_cons])

/-! ### Theorems: the price store -/

theorem countP_insertIgnore_self (store : List PricePeriod) (r : PricePeriod)
    (h : store.countP (fun p => decide (p.from_period = r.from_period)) ≤ 1) :
    (insertIgnore PricePeriod.from_period store r).countP
      (fun p => decide (p.from_period = r.from_period)) = 1 := by
  unfold insertIgnore
  by_cases hany : store.any (fun p => decide (p.from_period = r.from_period)) = true
  · rw [if_pos hany]
    have hpos : 0 < store.countP (fun p => decide (p.from_period = r.from_period)) := by
      rw [List.countP_pos_iff]
      simpa using List.any_eq_true.mp hany
    omega
  · rw [if_neg hany, List.countP_append]
    have hzero : store.countP (fun p => decide (p.from_period = r.from_period)) = 0 := by
      rw [List.countP_eq_zero]
      intro a ha hpa
      exact hany (List.any_eq_true.mpr ⟨a, ha, hpa⟩)
    simp [hzero, List.countP_cons]

theorem insertIgnore_fixed (store : List PricePeriod) (r : PricePeriod)
    (h : 0 < store.countP (fun p => decide (p.from_period = r.from_period))) :
    insertIgnore PricePeriod.from_period store r = store := by
  unfold insertIgnore
  rw [if_pos]
  rw [List.any_eq_true]
  obtain ⟨a, ha, hpa⟩ := List.countP_pos_iff.mp h
  exact ⟨a, ha, hpa⟩

theorem iterInsert_fixed (r : PricePeriod) (s : List PricePeriod)
    (h : insertIgnore PricePeriod.from_period s r = s) :
    ∀ m, (fun s => insertIgnore PricePeriod.from_period s r)^[m] s = s := by
  intro m
  induction m with
  | zero => rfl
  | succ k ih =>
    rw [Function.iterate_succ_apply]
    simpa [h] using ih

/-- C2: insertion is idempotent on the period-start key: a record whose
`from_period` already exists is silently skipped, and ingesting the same
record any number of times leaves exactly one row with that key (given the
primary-key invariant that the key was not already duplicated). -/
theorem insert_price_idempotent :
    (∀ (store : List PricePeriod) (r : PricePeriod),
        (∃ p ∈ store, p.from_period = r.from_period) →
        insertIgnore PricePeriod.from_period store r = store) ∧
    (∀ (store : List PricePeriod) (r : PricePeriod) (n : Nat), 0 < n →
        store.countP (fun p => decide (p.from_period = r.from_period)) ≤ 1 →
        ((fun s => insertIgnore PricePeriod.from_period s r)^[n] store).countP
          (fun p => decide (p.from_period = r.from_period)) = 1) := by
  constructor
  · intro store r ⟨p, hp, he⟩
    exact insertIgnore_fixed store r (List.countP_pos_iff.mpr ⟨p, hp, by simpa using he⟩)
  · intro store r n hn hle
    obtain ⟨m, rfl⟩ := Nat.exists_eq_succ_of_ne_zero (Nat.pos_iff_ne_zero.mp hn)
    have h1 : (insertIgnore PricePeriod.from_period store r).countP
        (fun p => decide (p.from_period = r.from_period)) = 1 :=
      countP_insertIgnore_self store r hle
    have hfix : insertIgnore PricePeriod.from_period
        (insertIgnore PricePeriod.from_period store r) r
        = insertIgnore PricePeriod.from_period store r :=
      insertIgnore_fixed _ r (by omega)
    have hiter : (fun s => insertIgnore PricePeriod.from_period s r)^[m.succ] store
        = insertIgnore PricePeriod.from_period store r := by
      rw [Function.iterate_succ_apply]
      exact iterInsert_fixed r _ hfix m
    rw [hiter]
    exact h1

theorem insert_price_idempotent_witness :
    insertIgnore PricePeriod.from_period [⟨0, 30, 5⟩] ⟨0, 30, 5⟩ = [⟨0, 30, 5⟩] ∧
    ((fun s => insertIgnore PricePeriod.from_period s (⟨0, 30, 5⟩ : PricePeriod))^[3]
        []).countP (fun p => decide (p.from_period = (0 : Nat))) = 1 := by
  constructor
  · exact insert_price_idempotent.1 [⟨0, 30, 5⟩] ⟨0, 30, 5⟩ ⟨⟨0, 30, 5⟩, by simp, rfl⟩
  · exact insert_price_idempotent.2 [] ⟨0, 30, 5⟩ 3 (by decide) (by decide)

/-- C4: the below-threshold query returns exactly the stored periods whose
price is strictly below the threshold and whose `from` lies within the
inclusive range, ordered ascending by `from`; when nothing qualifies it
returns the empty list rather than failing. -/
theorem queryBelow_returns_qualifying (store : List PricePeriod) (thr : ℚ) (lo hi : Nat) :
    (∀ x : Nat × Nat, x ∈ queryBelow store thr lo hi ↔
        ∃ p ∈ store, p.price < thr ∧ lo ≤ p.from_period ∧ p.from_period ≤ hi ∧
          x = (p.from_period, p.to_period)) ∧
    List.Sorted byFrom (queryBelow store thr lo hi) ∧
    ((∀ p ∈ store, ¬(p.price < thr ∧ lo ≤ p.from_period ∧ p.from_period ≤ hi)) →
        queryBelow store thr lo hi = []) := by
  refine ⟨fun x => ?_, List.sorted_insertionSort byFrom _, fun hnone => ?_⟩
  · rw [queryBelow, List.mem_insertionSort, List.mem_map]
    simp only [List.mem_filter, Bool.and_eq_true, decide_eq_true_eq]
    constructor
    · rintro ⟨p, ⟨hp, ⟨hlo, hhi⟩, hpr⟩, rfl⟩
      exact ⟨p, hp, hpr, hlo, hhi, rfl⟩
    · rintro ⟨p, hp, hpr, hlo, hhi, rfl⟩
      exact ⟨p, ⟨hp, ⟨hlo, hhi⟩, hpr⟩, rfl⟩
  · rw [queryBelow]
    have hf : store.filter (fun p => decide (lo ≤ p.from_period) && decide (p.from_period ≤ hi)
        && decide (p.price < thr)) = [] := by
      rw [List.filter_eq_nil_iff]
      intro p hp
      have hnp := hnone p hp
      simp only [Bool.and_eq_true, decide_eq_true_eq]
      tauto
    rw [hf]
    rfl

theorem queryBelow_returns_qualifying_witness :
    queryBelow [⟨5, 6, 30⟩] 10 0 10 = [] :=
  (queryBelow_returns_qualifying [⟨5, 6, 30⟩] 10 0 10).2.2 (by decide)

/-! ### Theorems: the report formatter -/

theorem string_foldl_append_shift (l : List String) : ∀ init : String,
    l.foldl (fun r s => r ++ s) init = init ++ l.foldl (fun r s => r ++ s) "" := by
  induction l with
  | nil => intro init; simp
  | cons h t ih =>
    intro init
    rw [List.foldl_cons, List.foldl_cons, ih (init ++ h), ih ("" ++ h), String.empty_append,
      String.append_assoc]

theorem string_join_cons (a : String) (L : List String) :
    String.join (a :: L) = a ++ String.join L := by
  rw [String.join, String.join, List.foldl_cons, string_foldl_append_shift, String.empty_append]

theorem format_hours_foldl (hours : List (String × String)) : ∀ init : String,
    hours.foldl (fun html h =>
        html ++ ("<tr><td>" ++ h.1 ++ "</td><td></td><td>" ++ h.2 ++ "</td></tr>")) init
      = init ++ String.join (hours.map rowHtml) := by
  induction hours with
  | nil => intro init; simp [String.join]
  | cons h t ih =>
    intro init
    rw [List.foldl_cons, ih, List.map_cons, string_join_cons, rowHtml, String.append_assoc]

/-- C9: the formatter renders exactly one table row per merged interval (the
row holding the start time, a blank separator cell and the end time, in input
order), and an empty interval list renders zero rows while the threshold's
header still appears in the section. -/
theorem format_hours_rows :
    (∀ hours : List (String × String), format_hours hours = String.join (hours.map rowHtml)) ∧
    (format_hours [] = "") ∧
    (∀ t : Nat, sectionHtml t [] = sectionHeader t ++ "</table><br>") := by
  refine ⟨fun hours => ?_, rfl, fun t => ?_⟩
  · rw [format_hours, format_hours_foldl, String.empty_append]
  · rw [sectionHtml, format_hours, List.foldl_nil, String.append_empty]

/-! ### Theorems: the time normalizer -/

/-- C5: the time normalizer maps a UTC instant to the same instant in the
target timezone with daylight-saving adjustment: "2021-02-21T00:00:00Z" in
Europe/London (winter, no DST) yields civil time 2021-02-21 00:00:00, and a
summer UTC instant is shifted by the +1 hour DST offset. -/
theorem to_timezone_london_dst :
    to_timezone "2021-02-21T00:00:00Z" "Europe/London" = "2021-02-21 00:00:00" ∧
    to_timezone "2021-07-01T00:00:00Z" "Europe/London" = "2021-07-01 01:00:00" := by
  constructor <;> rfl

/-! ### Theorems: the fetch and ingest error flow -/

/-- C3 counterexample: `get_price` never inspects the status code — on a
non-2xx response (e.g. 401 for an invalid API key) it surfaces no fetch
error at all, returning the parsed error body as a success value. -/
theorem get_price_non2xx_no_fetch_error :
    get_price (.ok ⟨401, [("detail", JsonVal.str "Invalid API key")]⟩)
      = .ok [("detail", JsonVal.str "Invalid API key")] := rfl

/-- C3 amended: a network failure surfaces an error from the fetch call
itself; a non-2xx response does not — `get_price` returns the error body and
the run fails later, inside `insert_price`, on the missing "results" key.
Either way the run aborts before any insert is committed, leaving the store
exactly unmodified. -/
theorem fetch_failure_store_unmodified (store : List Row) (resp : HttpResponse)
    (hnores : lookupKey resp.body "results" = none) :
    runFetchInsert store (.error ()) = (store, some .netError) ∧
    runFetchInsert store (.ok resp) = (store, some (.keyError "results")) := by
  refine ⟨rfl, ?_⟩
  simp [runFetchInsert, get_price, insert_price, hnores]

theorem fetch_failure_store_unmodified_witness :
    runFetchInsert [] (.ok ⟨401, [("detail", JsonVal.str "Invalid API key")]⟩)
      = ([], some (OctoErr.keyError "results")) :=
  (fetch_failure_store_unmodified [] ⟨401, [("detail", JsonVal.str "Invalid API key")]⟩
    rfl).2

end Octopus
